import Mathlib

/-!
Shallow embedding of `scripts/transcribe.py` (transcription normalizer).

Python floats are modelled as `PyFloat`: NaN, the two infinities, or a
finite value (an exact rational).  Python comparison semantics are modelled
by `pylt`/`pyle` (every comparison involving NaN is false), and the builtin
`max`/`min` on two arguments by `pymax`/`pymin` (first argument kept on
ties, exactly as CPython's `max(a, b)`/`min(a, b)` behave).

Engine-supplied attribute values fed to `float(...)` are modelled by
`PyVal`: either a value on which the builtin `float` succeeds (numbers and
valid numeric strings, classified by the `PyFloat` it yields), or a value
on which it raises `TypeError`/`ValueError` (e.g. `None`, non-numeric
strings, arbitrary objects).  Missing attributes (`getattr` defaults) are
modelled by `Option`.
-/

namespace Transcribe

/-- A Python float: NaN, +inf, -inf, or a finite value (exact rational). -/
inductive PyFloat where
  | nan : PyFloat
  | inf : PyFloat
  | ninf : PyFloat
  | fin : ℚ → PyFloat
deriving DecidableEq

/-- An engine-supplied Python value in a numeric field, classified by what
the builtin `float` does with it: `num x` when `float(value)` returns the
float `x` (numbers and valid numeric strings), `bad` when it raises
`TypeError` or `ValueError`.  This type covers only the sub-domain on
which `safe_float` returns: `float` can also raise exceptions that
`safe_float` does not catch (e.g. `OverflowError` on the int `10**400`);
that error path is modelled separately by `PyValFull` and
`safe_float_run`. -/
inductive PyVal where
  | num : PyFloat → PyVal
  | bad : PyVal
deriving DecidableEq

/-- An engine-supplied Python value in a numeric field, classified by the
full behavior of the builtin `float` on it: `num x` when `float(value)`
returns the float `x`; `bad` when it raises `TypeError` or `ValueError`
(the two exceptions `safe_float` catches); `err` when it raises any other
exception, such as `OverflowError` on an int too large for a double
(e.g. `10**400`). -/
inductive PyValFull where
  | num : PyFloat → PyValFull
  | bad : PyValFull
  | err : PyValFull
deriving DecidableEq

/-- The inclusion of the non-raising sub-domain into the full domain. -/
def PyVal.toFull : PyVal → PyValFull
  | .num x => .num x
  | .bad => .bad

/-- Model of the Python builtin `float(value)` call inside the `try` block:
`none` when it raises `TypeError`/`ValueError`, otherwise the float it
returns. -/
def pyFloatConv : PyVal → Option PyFloat
  | .num x => some x
  | .bad => none

/-- Python `<` on floats: any comparison with NaN is false. -/
def pylt : PyFloat → PyFloat → Bool
  | .nan, _ => false
  | _, .nan => false
  | .ninf, .ninf => false
  | .ninf, _ => true
  | _, .ninf => false
  | .fin q, .fin r => decide (q < r)
  | .fin _, .inf => true
  | .inf, _ => false

/-- Python `<=` on floats: any comparison with NaN is false. -/
def pyle : PyFloat → PyFloat → Bool
  | .nan, _ => false
  | _, .nan => false
  | .ninf, _ => true
  | _, .ninf => false
  | .fin q, .fin r => decide (q ≤ r)
  | .fin _, .inf => true
  | .inf, .inf => true
  | .inf, .fin _ => false

/-- Python `max(a, b)`: keeps `a` unless `b > a`. -/
def pymax (a b : PyFloat) : PyFloat :=
  if pylt a b then b else a

/-- Python `min(a, b)`: keeps `a` unless `b < a`. -/
def pymin (a b : PyFloat) : PyFloat :=
  if pylt b a then b else a

/-- Adding a finite literal (such as `0.01`) to a float, as exact rational
addition.  This idealizes IEEE double addition, which rounds the sum: for
a large finite float the increment can be absorbed entirely (in CPython
`1e16 + 0.01 == 1e16`).  Downstream results therefore rely only
on rounding-insensitive consequences of this definition, such as
`q ≤ q + c` for `0 ≤ c`, which also holds for the rounded IEEE sum;
nothing concludes `q < q + c` about the program. -/
def addFin : PyFloat → ℚ → PyFloat
  | .nan, _ => .nan
  | .inf, _ => .inf
  | .ninf, _ => .ninf
  | .fin q, c => .fin (q + c)

/-- `safe_float(value, fallback)` from the source: try `float(value)`,
return the fallback on `TypeError`/`ValueError`; if the converted number is
NaN (in Python detected by `number != number`) return the fallback, and
otherwise return the number. -/
def safe_float (value : PyVal) (fallback : PyFloat) : PyFloat :=
  match pyFloatConv value with
  | none => fallback
  | some number => if number = .nan then fallback else number

/-- `safe_float` on the full input domain, with the uncaught error path
explicit: the `except (TypeError, ValueError)` clause catches only those
two exceptions, so when `float(value)` raises anything else (e.g.
`OverflowError` on `10**400`) the exception propagates out of
`safe_float` instead of a float being returned. -/
def safe_float_run : PyValFull → PyFloat → Except Unit PyFloat
  | .num number, fallback => .ok (if number = .nan then fallback else number)
  | .bad, fallback => .ok fallback
  | .err, _ => .error ()

/-- Whitespace as recognised by Python's `str.strip()` (restricted to the
ASCII whitespace characters: space, tab, newline, carriage return,
vertical tab, form feed). -/
def isPySpace (c : Char) : Bool :=
  c = ' ' || c = '\t' || c = '\n' || c = '\r' || c = '\x0b' || c = '\x0c'

/-- Drop the leading whitespace characters of a character list. -/
def dropLeadingSpace : List Char → List Char
  | [] => []
  | c :: cs => if isPySpace c then dropLeadingSpace cs else c :: cs

/-- Model of the Python builtin `str.strip()`: remove leading and trailing
whitespace. -/
def strip (s : String) : String :=
  ⟨(dropLeadingSpace (dropLeadingSpace s.data.reverse).reverse)⟩

/-- An engine word record: each attribute may be missing (`getattr` then
takes the supplied default).  The token attribute is called `word` in the
source; `none` models a missing or `None` token (the source maps both to
`""` via `or ""`). -/
structure RawWord where
  word : Option String
  start : Option PyVal
  «end» : Option PyVal
  probability : Option PyVal
deriving DecidableEq

/-- An engine segment record, with possibly-missing attributes. -/
structure RawSegment where
  text : Option String
  start : Option PyVal
  «end» : Option PyVal
  words : Option (List RawWord)
deriving DecidableEq

/-- A sanitized word as emitted in the result. -/
structure OutWord where
  text : String
  start : PyFloat
  «end» : PyFloat
  confidence : PyFloat
deriving DecidableEq

/-- The assembled result dictionary. -/
structure TranscriptionResult where
  text : String
  language : Option String
  duration : PyFloat
  words : List OutWord
deriving DecidableEq

/-- `segment_start = safe_float(getattr(segment, "start", 0.0), 0.0)`. -/
def segStartOf (s : RawSegment) : PyFloat :=
  safe_float ((s.start).getD (.num (.fin 0))) (.fin 0)

/-- `segment_end = safe_float(getattr(segment, "end", segment_start + 0.01),
segment_start + 0.01)`. -/
def segEndOf (s : RawSegment) : PyFloat :=
  safe_float ((s.«end»).getD (.num (addFin (segStartOf s) ((1 : ℚ)/100))))
    (addFin (segStartOf s) ((1 : ℚ)/100))

/-- `segment_text = (getattr(segment, "text", "") or "").strip()`. -/
def segTextOf (s : RawSegment) : String :=
  strip ((s.text).getD "")

/-- `start = safe_float(getattr(word, "start", segment_start), segment_start)`. -/
def wordStart (segment_start : PyFloat) (w : RawWord) : PyFloat :=
  safe_float ((w.start).getD (.num segment_start)) segment_start

/-- `end = safe_float(getattr(word, "end", segment_end),
max(start + 0.01, segment_end))`, before the bump of line 92. -/
def wordEndRaw (segment_end start : PyFloat) (w : RawWord) : PyFloat :=
  safe_float ((w.«end»).getD (.num segment_end))
    (pymax (addFin start ((1 : ℚ)/100)) segment_end)

/-- The emitted end time: the raw end, bumped to `start + 0.01` when
`end <= start`. -/
def wordEnd (segment_end start : PyFloat) (w : RawWord) : PyFloat :=
  if pyle (wordEndRaw segment_end start w) start then addFin start ((1 : ℚ)/100)
  else wordEndRaw segment_end start w

/-- `confidence = min(1.0, max(0.0, safe_float(getattr(word, "probability",
0.0), 0.0)))`. -/
def wordConfidence (w : RawWord) : PyFloat :=
  pymin (.fin 1) (pymax (.fin 0) (safe_float ((w.probability).getD (.num (.fin 0))) (.fin 0)))

/-- The body of the inner word loop: a word whose trimmed token
`(getattr(word, "word", "") or "").strip()` is empty is skipped
(`continue`), otherwise the sanitized record is appended. -/
def processWord (segment_start segment_end : PyFloat) (w : RawWord) : Option OutWord :=
  if strip ((w.word).getD "") = "" then none
  else some
    { text := strip ((w.word).getD "")
    , start := wordStart segment_start w
    , «end» := wordEnd segment_end (wordStart segment_start w) w
    , confidence := wordConfidence w }

/-- The sanitized words contributed by one segment, in order. -/
def segWordsOf (s : RawSegment) : List OutWord :=
  ((s.words).getD []).filterMap (processWord (segStartOf s) (segEndOf s))

/-- The contribution of one segment to `text_parts`: its trimmed text when
non-empty, nothing otherwise. -/
def segPartsOf (s : RawSegment) : List String :=
  if segTextOf s = "" then [] else [segTextOf s]

/-- Loop state of `transcribe_audio`: the accumulated `words`,
`text_parts` and running `duration`. -/
structure AsmState where
  words : List OutWord
  text_parts : List String
  duration : PyFloat
deriving DecidableEq

/-- The body of the outer segment loop of `transcribe_audio`. -/
def processSegment (st : AsmState) (s : RawSegment) : AsmState :=
  { words := st.words ++ segWordsOf s
  , text_parts := st.text_parts ++ segPartsOf s
  , duration := pymax st.duration (segEndOf s) }

/-- `transcribe_audio`, with the engine call abstracted: it receives the
segment sequence the engine produced and the language from the info
object, and performs the normalization pass of lines 72-116. -/
def transcribe_audio (segments : List RawSegment) (language : Option String) :
    TranscriptionResult :=
  let st := segments.foldl processSegment ⟨[], [], .fin 0⟩
  let text0 := strip (String.intercalate " " st.text_parts)
  let text :=
    if text0 = "" then strip (String.intercalate " " (st.words.map OutWord.text))
    else text0
  { text := text, language := language, duration := st.duration, words := st.words }

example :
    transcribe_audio
      [{ text := some "hi there", start := some (.num (.fin 0)), «end» := some (.num (.fin 1))
       , words := some
          [ { word := some " hi ", start := some (.num (.fin 0))
            , «end» := some (.num (.fin (mkRat 2 5))), probability := some (.num (.fin (mkRat 9 10))) }
          , { word := some "there", start := some (.num (.fin (mkRat 2 5)))
            , «end» := some (.num (.fin 1)), probability := some (.num (.fin (mkRat 7 5))) } ] }]
      (some "en") =
    { text := "hi there", language := some "en", duration := .fin 1
    , words :=
        [ { text := "hi", start := .fin 0, «end» := .fin (mkRat 2 5), confidence := .fin (mkRat 9 10) }
        , { text := "there", start := .fin (mkRat 2 5), «end» := .fin 1, confidence := .fin 1 } ] } := by
  decide

/-! Basic facts about the float model. -/

lemma safe_float_ne_nan (v : PyVal) (fb : PyFloat) (h : fb ≠ .nan) :
    safe_float v fb ≠ .nan := by
  cases v with
  | bad => simpa [safe_float, pyFloatConv] using h
  | num x =>
    by_cases hx : x = .nan <;> simp [safe_float, pyFloatConv, hx, h]

lemma addFin_ne_nan (a : PyFloat) (c : ℚ) (h : a ≠ .nan) : addFin a c ≠ .nan := by
  cases a <;> simp_all [addFin]

lemma pymax_ne_nan (a b : PyFloat) (ha : a ≠ .nan) (hb : b ≠ .nan) :
    pymax a b ≠ .nan := by
  unfold pymax; split <;> assumption

lemma pyle_refl (a : PyFloat) (h : a ≠ .nan) : pyle a a = true := by
  cases a <;> simp_all [pyle]

lemma pyle_of_pylt (a b : PyFloat) (h : pylt a b = true) : pyle a b = true := by
  cases a <;> cases b <;> simp_all [pylt, pyle] <;> exact le_of_lt h

lemma pylt_of_not_pyle (a b : PyFloat) (ha : a ≠ .nan) (hb : b ≠ .nan)
    (h : pyle a b = false) : pylt b a = true := by
  cases a <;> cases b <;> simp_all [pylt, pyle]

lemma pyle_of_not_pylt (a b : PyFloat) (ha : a ≠ .nan) (hb : b ≠ .nan)
    (h : pylt a b = false) : pyle b a = true := by
  cases a <;> cases b <;> simp_all [pylt, pyle]

lemma pyle_trans (a b c : PyFloat) (ha : a ≠ .nan) (hb : b ≠ .nan) (hc : c ≠ .nan)
    (hab : pyle a b = true) (hbc : pyle b c = true) : pyle a c = true := by
  cases a <;> cases b <;> cases c <;> simp_all [pyle] <;> exact le_trans hab hbc

lemma pymax_left_or_right (a b : PyFloat) : pymax a b = a ∨ pymax a b = b := by
  unfold pymax; split <;> simp

lemma pyle_pymax_left (a b : PyFloat) (ha : a ≠ .nan) (hb : b ≠ .nan) :
    pyle a (pymax a b) = true := by
  unfold pymax
  split
  next h => exact pyle_of_pylt a b h
  next h => exact pyle_refl a ha

lemma pyle_pymax_right (a b : PyFloat) (ha : a ≠ .nan) (hb : b ≠ .nan) :
    pyle b (pymax a b) = true := by
  unfold pymax
  split
  next h => exact pyle_refl b hb
  next h => exact pyle_of_not_pylt a b ha hb (by simpa using h)

lemma pyle_addFin (a : PyFloat) (c : ℚ) (ha : a ≠ .nan) (hc : 0 ≤ c) :
    pyle a (addFin a c) = true := by
  cases a with
  | nan => exact absurd rfl ha
  | inf => simp [addFin, pyle]
  | ninf => simp [addFin, pyle]
  | fin q => simp only [addFin, pyle, decide_eq_true_eq] ; linarith

lemma eq_inf_of_pyle_inf (m : PyFloat) (h : pyle .inf m = true) : m = .inf := by
  cases m <;> simp_all [pyle]

lemma pymax_inf_left (b : PyFloat) : pymax .inf b = .inf := by
  cases b <;> simp [pymax, pylt]

/-! Unfolding the segment loop of `transcribe_audio`. -/

lemma foldl_processSegment (segs : List RawSegment) (st : AsmState) :
    segs.foldl processSegment st =
      { words := st.words ++ segs.flatMap segWordsOf
      , text_parts := st.text_parts ++ segs.flatMap segPartsOf
      , duration := segs.foldl (fun d s => pymax d (segEndOf s)) st.duration } := by
  induction segs generalizing st with
  | nil => simp
  | cons s rest ih => simp [List.foldl_cons, processSegment, ih]

lemma transcribe_words (segs : List RawSegment) (lang : Option String) :
    (transcribe_audio segs lang).words = segs.flatMap segWordsOf := by
  simp [transcribe_audio, foldl_processSegment]

lemma transcribe_duration (segs : List RawSegment) (lang : Option String) :
    (transcribe_audio segs lang).duration =
      (segs.map segEndOf).foldl pymax (.fin 0) := by
  simp [transcribe_audio, foldl_processSegment, List.foldl_map]

lemma transcribe_text (segs : List RawSegment) (lang : Option String) :
    (transcribe_audio segs lang).text =
      (if strip (String.intercalate " " (segs.flatMap segPartsOf)) = "" then
        strip (String.intercalate " " ((segs.flatMap segWordsOf).map OutWord.text))
      else strip (String.intercalate " " (segs.flatMap segPartsOf))) := by
  simp [transcribe_audio, foldl_processSegment]

lemma segParts_eq_filter (segs : List RawSegment) :
    segs.flatMap segPartsOf = (segs.map segTextOf).filter (fun t => !(t == "")) := by
  induction segs with
  | nil => simp
  | cons s rest ih =>
    by_cases h : segTextOf s = "" <;> simp [segPartsOf, h, ih]

lemma segStartOf_ne_nan (s : RawSegment) : segStartOf s ≠ .nan :=
  safe_float_ne_nan _ _ (by simp)

lemma segEndOf_ne_nan (s : RawSegment) : segEndOf s ≠ .nan :=
  safe_float_ne_nan _ _ (addFin_ne_nan _ _ (segStartOf_ne_nan s))

lemma wordStart_ne_nan (s : PyFloat) (hs : s ≠ .nan) (w : RawWord) :
    wordStart s w ≠ .nan :=
  safe_float_ne_nan _ _ hs

lemma wordEndRaw_ne_nan (e st : PyFloat) (he : e ≠ .nan) (hst : st ≠ .nan)
    (w : RawWord) : wordEndRaw e st w ≠ .nan :=
  safe_float_ne_nan _ _ (pymax_ne_nan _ _ (addFin_ne_nan _ _ hst) he)

/-- The emitted end time is never NaN and is at least the start: the bump
branch yields `start + 0.01`, which is at least `start` (this is true of
the rounded IEEE sum as well), and the other branch has `end > start` by
the failed `end <= start` test. -/
lemma wordEnd_spec (e st : PyFloat) (he : e ≠ .nan) (hst : st ≠ .nan) (w : RawWord) :
    wordEnd e st w ≠ .nan ∧ pyle st (wordEnd e st w) = true := by
  unfold wordEnd
  split
  next h =>
    exact ⟨addFin_ne_nan _ _ hst, pyle_addFin st _ hst (by norm_num)⟩
  next h =>
    have hne := wordEndRaw_ne_nan e st he hst w
    have hlt : pylt st (wordEndRaw e st w) = true :=
      pylt_of_not_pyle _ _ hne hst (by simpa using h)
    exact ⟨hne, pyle_of_pylt _ _ hlt⟩

lemma processWord_eq_some {s e : PyFloat} {w : RawWord} {ow : OutWord}
    (h : processWord s e w = some ow) :
    ow.text = strip ((w.word).getD "") ∧ ow.start = wordStart s w ∧
      ow.«end» = wordEnd e (wordStart s w) w ∧ ow.confidence = wordConfidence w := by
  unfold processWord at h
  split at h
  · exact absurd h (by simp)
  · cases h
    exact ⟨rfl, rfl, rfl, rfl⟩

lemma mem_words (segs : List RawSegment) (lang : Option String) (w : OutWord) :
    w ∈ (transcribe_audio segs lang).words ↔
      ∃ s ∈ segs, ∃ rw ∈ (s.words).getD [],
        processWord (segStartOf s) (segEndOf s) rw = some w := by
  rw [transcribe_words]
  simp [segWordsOf, List.mem_flatMap, List.mem_filterMap]

/-- The clamped confidence is always a finite value in the unit interval. -/
lemma wordConfidence_mem_unit (w : RawWord) :
    ∃ q : ℚ, wordConfidence w = .fin q ∧ 0 ≤ q ∧ q ≤ 1 := by
  unfold wordConfidence
  have hcn : safe_float ((w.probability).getD (.num (.fin 0))) (.fin 0) ≠ .nan :=
    safe_float_ne_nan _ _ (by simp)
  cases hc : safe_float ((w.probability).getD (.num (.fin 0))) (.fin 0) with
  | nan => exact absurd hc hcn
  | inf =>
    refine ⟨1, ?_, by norm_num, le_refl 1⟩
    simp [pymax, pymin, pylt]
  | ninf =>
    refine ⟨0, ?_, le_refl 0, by norm_num⟩
    norm_num [pymax, pymin, pylt]
  | fin q =>
    by_cases h0 : 0 < q
    · by_cases h1 : q < 1
      · exact ⟨q, by simp [pymax, pymin, pylt, h0, h1], le_of_lt h0, le_of_lt h1⟩
      · exact ⟨1, by simp [pymax, pymin, pylt, h0, h1], by norm_num, le_refl 1⟩
    · refine ⟨0, ?_, le_refl 0, by norm_num⟩
      norm_num [pymax, pymin, pylt, h0]

lemma flatMap_words_length_le (segs : List RawSegment) :
    (segs.flatMap segWordsOf).length ≤
      (segs.map fun s => ((s.words).getD []).length).sum := by
  induction segs with
  | nil => simp
  | cons s rest ih =>
    simp only [List.flatMap_cons, List.length_append, List.map_cons, List.sum_cons]
    exact Nat.add_le_add (List.length_filterMap_le _ _) ih

/-- Maximum accumulation by repeated Python `max` over non-NaN floats: the
result is non-NaN, bounds the seed and every element from above, and is the
seed or one of the elements. -/
lemma foldl_pymax_spec (l : List PyFloat) (a : PyFloat) (ha : a ≠ .nan)
    (hl : ∀ x ∈ l, x ≠ .nan) :
    l.foldl pymax a ≠ .nan ∧ pyle a (l.foldl pymax a) = true ∧
      (∀ x ∈ l, pyle x (l.foldl pymax a) = true) ∧
      (l.foldl pymax a = a ∨ l.foldl pymax a ∈ l) := by
  induction l generalizing a with
  | nil => exact ⟨ha, pyle_refl a ha, by simp, Or.inl rfl⟩
  | cons x xs ih =>
    have hx : x ≠ .nan := hl x (by simp)
    have hxs : ∀ y ∈ xs, y ≠ .nan := fun y hy => hl y (by simp [hy])
    have hmax : pymax a x ≠ .nan := pymax_ne_nan a x ha hx
    obtain ⟨hn, hle, hall, hat⟩ := ih (pymax a x) hmax hxs
    simp only [List.foldl_cons]
    refine ⟨hn, ?_, ?_, ?_⟩
    · exact pyle_trans a (pymax a x) _ ha hmax hn (pyle_pymax_left a x ha hx) hle
    · intro y hy
      rcases List.mem_cons.1 hy with rfl | hy'
      · exact pyle_trans y (pymax a y) _ hx hmax hn (pyle_pymax_right a y ha hx) hle
      · exact hall y hy'
    · rcases hat with h | h
      · rcases pymax_left_or_right a x with h2 | h2
        · exact Or.inl (h.trans h2)
        · exact Or.inr (by simp [h.trans h2])
      · exact Or.inr (by simp [h])

/-! Concrete engine outputs used to instantiate the theorems. -/

/-- The spec's end-to-end example segment: text "hi there" with two words. -/
def segsA : List RawSegment :=
  [{ text := some "hi there", start := some (.num (.fin 0)), «end» := some (.num (.fin 1))
   , words := some
      [ { word := some " hi ", start := some (.num (.fin 0))
        , «end» := some (.num (.fin (mkRat 2 5))), probability := some (.num (.fin (mkRat 9 10))) }
      , { word := some "there", start := some (.num (.fin (mkRat 2 5)))
        , «end» := some (.num (.fin 1)), probability := some (.num (.fin (mkRat 7 5))) } ] }]

/-- The first emitted word of `segsA`. -/
def wA : OutWord :=
  { text := "hi", start := .fin 0, «end» := .fin (mkRat 2 5), confidence := .fin (mkRat 9 10) }

/-- A word with no timing fields and probability 1. -/
def rwB : RawWord :=
  { word := some "yo", start := none, «end» := none, probability := some (.num (.fin 1)) }

/-- A segment with no text whose single word has no timing fields. -/
def segsB : List RawSegment :=
  [{ text := none, start := some (.num (.fin 0)), «end» := some (.num (.fin 1))
   , words := some [rwB] }]

/-- A segment whose single word carries infinite timestamps. -/
def segInf : RawSegment :=
  { text := none, start := some (.num (.fin 0)), «end» := some (.num (.fin 1))
  , words := some [{ word := some "x", start := some (.num .inf)
                   , «end» := some (.num .inf), probability := none }] }

/-- A segment whose end-time is negative infinity. -/
def segNinf : RawSegment :=
  { text := none, start := some (.num (.fin 0)), «end» := some (.num .ninf), words := none }

/-- A segment whose end-time is positive infinity. -/
def segInfEnd : RawSegment :=
  { text := none, start := some (.num (.fin 0)), «end» := some (.num .inf), words := none }

/-- A word whose token is whitespace only. -/
def rwEmpty : RawWord :=
  { word := some "   ", start := none, «end» := none, probability := none }

/-- The spec's notion in C2 of the maximum segment end-time across a
non-empty sequence of segments: repeated Python `max` of the sanitized
end-times themselves (no `0.0` seed). -/
def specMaxSegEnd (s0 : RawSegment) (rest : List RawSegment) : PyFloat :=
  rest.foldl (fun d s => pymax d (segEndOf s)) (segEndOf s0)

/-! The claims. -/

/-- C1, counterexample: on a word with `start = end = +inf` the bump
`end = start + 0.01` leaves `end = +inf = start`, so `end > start` fails
for an emitted word. -/
theorem word_end_gt_start_cex :
    ((transcribe_audio [segInf] none).words.all fun w => pylt w.start w.«end») = false := by
  decide

/-- C1 (amended): every emitted word satisfies `end >= start`: whenever
`end <= start` the bump sets `end = start + 0.01`, which never leaves the
end below the start; strict inequality is not guaranteed, since the bump
leaves `end = start` for an infinite start, and in IEEE double arithmetic
also for a large finite start that absorbs the `0.01` increment (in
CPython `1e16 + 0.01 == 1e16`). -/
theorem word_end_ge_start (segs : List RawSegment) (lang : Option String) (w : OutWord)
    (hw : w ∈ (transcribe_audio segs lang).words) :
    pyle w.start w.«end» = true := by
  obtain ⟨s, hs, rw, hrw, hp⟩ := (mem_words segs lang w).1 hw
  obtain ⟨-, hstart, hend, -⟩ := processWord_eq_some hp
  have hsn : wordStart (segStartOf s) rw ≠ .nan :=
    wordStart_ne_nan _ (segStartOf_ne_nan s) rw
  obtain ⟨-, hle⟩ := wordEnd_spec (segEndOf s) _ (segEndOf_ne_nan s) hsn rw
  rw [hstart, hend]
  exact hle

/-- C1 witness: the first word of the example result has an end no earlier
than its start. -/
theorem word_end_ge_start_w : pyle wA.start wA.«end» = true :=
  word_end_ge_start segsA (some "en") wA (by decide)

/-- C2, counterexample: for a single segment with sanitized end-time `-inf`
the result's duration is `0.0`, not the maximum segment end-time `-inf`:
the running maximum starts at `0.0`, not at the first segment's end. -/
theorem duration_max_cex :
    (transcribe_audio [segNinf] none).duration ≠ specMaxSegEnd segNinf [] := by
  decide

/-- Shared duration facts: the assembled duration is non-negative, bounds
every sanitized segment end-time from above, and is `0.0` or one of them. -/
lemma duration_facts (segs : List RawSegment) (lang : Option String) :
    pyle (.fin 0) (transcribe_audio segs lang).duration = true ∧
      (∀ s ∈ segs, pyle (segEndOf s) (transcribe_audio segs lang).duration = true) ∧
      ((transcribe_audio segs lang).duration = .fin 0 ∨
        ∃ s ∈ segs, (transcribe_audio segs lang).duration = segEndOf s) := by
  have hl : ∀ x ∈ segs.map segEndOf, x ≠ .nan := by
    intro x hx
    obtain ⟨s, hs, rfl⟩ := List.mem_map.1 hx
    exact segEndOf_ne_nan s
  obtain ⟨hn, h0, hall, hat⟩ := foldl_pymax_spec (segs.map segEndOf) (.fin 0) (by simp) hl
  rw [transcribe_duration]
  refine ⟨h0, fun s hs => hall _ (List.mem_map_of_mem _ hs), ?_⟩
  rcases hat with h | h
  · exact Or.inl h
  · obtain ⟨s, hs, hse⟩ := List.mem_map.1 h
    exact Or.inr ⟨s, hs, hse.symm⟩

/-- C2 (amended): the duration is the Python maximum of `0.0` and all
sanitized segment end-times: it is `>= 0.0`, bounds every sanitized segment
end-time from above, and is either `0.0` (in particular when there are no
segments) or one of them. -/
theorem duration_max_spec (segs : List RawSegment) (lang : Option String) :
    pyle (.fin 0) (transcribe_audio segs lang).duration = true ∧
      (∀ s ∈ segs, pyle (segEndOf s) (transcribe_audio segs lang).duration = true) ∧
      ((transcribe_audio segs lang).duration = .fin 0 ∨
        ∃ s ∈ segs, (transcribe_audio segs lang).duration = segEndOf s) :=
  duration_facts segs lang

/-- C2 witness: the amended duration property at the example input. -/
theorem duration_max_spec_w :
    pyle (.fin 0) (transcribe_audio segsA (some "en")).duration = true ∧
      (∀ s ∈ segsA, pyle (segEndOf s) (transcribe_audio segsA (some "en")).duration = true) ∧
      ((transcribe_audio segsA (some "en")).duration = .fin 0 ∨
        ∃ s ∈ segsA, (transcribe_audio segsA (some "en")).duration = segEndOf s) :=
  duration_max_spec segsA (some "en")

/-- C3, counterexample: `safe_float` is not total.  On a value whose
conversion by the builtin `float` raises an exception other than
`TypeError` or `ValueError` — such as `OverflowError` on the int
`10**400` — the `except (TypeError, ValueError)` clause does not catch
it, so `safe_float` raises instead of returning a float. -/
theorem safe_float_overflow_cex :
    safe_float_run .err (.fin 0) = .error () := rfl

/-- C3 (amended): `safe_float` is pure, and on every input whose
conversion either succeeds or raises `TypeError`/`ValueError` it returns:
the fallback, exactly when the conversion raises (one of those two) or
yields NaN; the converted value otherwise.  It is not total on the full
input domain: an input whose conversion raises any other exception (such
as `OverflowError` on `10**400`) propagates that exception out of
`safe_float`. -/
theorem safe_float_partial_spec :
    (∀ (v : PyVal) (fb : PyFloat),
        safe_float_run (PyVal.toFull v) fb = .ok (safe_float v fb)) ∧
      (∀ (v : PyVal) (fb : PyFloat),
        (pyFloatConv v = none → safe_float v fb = fb) ∧
          (pyFloatConv v = some .nan → safe_float v fb = fb) ∧
          (∀ x, pyFloatConv v = some x → x ≠ .nan → safe_float v fb = x)) ∧
      (∀ fb, safe_float_run .err fb = .error ()) := by
  refine ⟨?_, ?_, fun fb => rfl⟩
  · intro v fb
    cases v with
    | bad => rfl
    | num x => rfl
  · intro v fb
    cases v with
    | bad => exact ⟨fun _ => rfl, by simp [pyFloatConv], by simp [pyFloatConv]⟩
    | num x =>
      refine ⟨by simp [pyFloatConv], ?_, ?_⟩
      · intro h
        injection h with h
        subst h
        simp [safe_float, pyFloatConv]
      · intro y h hy
        injection h with h
        subst h
        simp [safe_float, pyFloatConv, hy]

/-- C3 witness: `safe_float` agrees with its run model on a returning
input, handles a failing conversion, NaN and a valid number, and raises
on an input with an uncaught conversion error. -/
theorem safe_float_partial_spec_w :
    safe_float_run (PyVal.toFull (.num (.fin 5))) (.fin 0) =
        .ok (safe_float (.num (.fin 5)) (.fin 0)) ∧
      safe_float .bad (.fin 2) = .fin 2 ∧
      safe_float (.num .nan) (.fin 3) = .fin 3 ∧
      safe_float (.num (.fin 5)) (.fin 0) = .fin 5 ∧
      safe_float_run .err (.fin 1) = .error () :=
  ⟨safe_float_partial_spec.1 (.num (.fin 5)) (.fin 0),
   (safe_float_partial_spec.2.1 .bad (.fin 2)).1 rfl,
   (safe_float_partial_spec.2.1 (.num .nan) (.fin 3)).2.1 rfl,
   (safe_float_partial_spec.2.1 (.num (.fin 5)) (.fin 0)).2.2 (.fin 5) rfl (by decide),
   safe_float_partial_spec.2.2 (.fin 1)⟩

/-- C4: the result text is the space-join of the trimmed non-empty segment
texts (then trimmed), falling back to the space-join of the emitted word
texts when that join is empty; in particular when all segment texts are
empty but words exist. -/
theorem text_join_spec (segs : List RawSegment) (lang : Option String) :
    ((transcribe_audio segs lang).text =
      (if strip (String.intercalate " "
            ((segs.map segTextOf).filter (fun t => !(t == "")))) = "" then
        strip (String.intercalate " " ((transcribe_audio segs lang).words.map OutWord.text))
      else
        strip (String.intercalate " "
          ((segs.map segTextOf).filter (fun t => !(t == "")))))) ∧
    ((∀ s ∈ segs, segTextOf s = "") →
      (transcribe_audio segs lang).text =
        strip (String.intercalate " " ((transcribe_audio segs lang).words.map OutWord.text))) := by
  have h1 := transcribe_text segs lang
  rw [segParts_eq_filter] at h1
  constructor
  · rw [transcribe_words]
    exact h1
  · intro hall
    have hparts : (segs.map segTextOf).filter (fun t => !(t == "")) = [] := by
      rw [List.filter_eq_nil_iff]
      intro t ht
      obtain ⟨s, hs, rfl⟩ := List.mem_map.1 ht
      simp [hall s hs]
    rw [transcribe_words, h1, hparts]
    simp [strip, dropLeadingSpace, String.intercalate]

/-- C4 witness: with an empty segment text and one word "yo", the text
falls back to the joined word texts. -/
theorem text_join_spec_w :
    (transcribe_audio segsB none).text =
      strip (String.intercalate " " ((transcribe_audio segsB none).words.map OutWord.text)) :=
  (text_join_spec segsB none).2 (by decide)

/-- C5: the emitted words are the per-segment processed words in order; the
emitted start and end are computed by exactly the sanitization formulas of
the source (with the bump applied to the end), and a word whose timing
attributes are missing inherits its segment's bounds through the
`getattr` defaults. -/
theorem word_timing_fallback_spec :
    (∀ (segs : List RawSegment) (lang : Option String),
        (transcribe_audio segs lang).words = segs.flatMap segWordsOf) ∧
      (∀ (s e : PyFloat) (rw : RawWord) (ow : OutWord),
        processWord s e rw = some ow →
          ow.start = safe_float ((rw.start).getD (.num s)) s ∧
            ow.«end» = wordEnd e ow.start rw) ∧
      (∀ (s e : PyFloat) (rw : RawWord), e ≠ .nan →
        (rw.start = none → wordStart s rw = s) ∧
          (rw.«end» = none → wordEndRaw e (wordStart s rw) rw = e)) := by
  refine ⟨transcribe_words, ?_, ?_⟩
  · intro s e rw ow h
    obtain ⟨-, hstart, hend, -⟩ := processWord_eq_some h
    refine ⟨hstart, ?_⟩
    rw [hend, hstart]
  · intro s e rw he
    constructor
    · intro h
      unfold wordStart
      rw [h]
      cases hs : s <;> simp [safe_float, pyFloatConv, Option.getD, hs]
    · intro h
      unfold wordEndRaw
      rw [h]
      simp [safe_float, pyFloatConv, Option.getD, he]

/-- C5 witness: a word with no timing attributes inherits its segment's
bounds, and the emitted fields follow the formulas at a concrete input. -/
theorem word_timing_fallback_spec_w :
    (transcribe_audio segsB none).words = segsB.flatMap segWordsOf ∧
      wordStart (.fin 0) rwB = .fin 0 ∧
      wordEndRaw (.fin 1) (wordStart (.fin 0) rwB) rwB = .fin 1 :=
  ⟨word_timing_fallback_spec.1 segsB none,
   (word_timing_fallback_spec.2.2 (.fin 0) (.fin 1) rwB (by decide)).1 rfl,
   (word_timing_fallback_spec.2.2 (.fin 0) (.fin 1) rwB (by decide)).2 rfl⟩

/-- C6: the emitted confidence is the clamp of the sanitized probability to
the unit interval, hence every emitted word has a finite confidence with
`0.0 <= confidence <= 1.0`, whatever the engine supplied. -/
theorem confidence_clamped :
    (∀ (s e : PyFloat) (rw : RawWord) (ow : OutWord),
        processWord s e rw = some ow →
          ow.confidence =
            pymin (.fin 1) (pymax (.fin 0)
              (safe_float ((rw.probability).getD (.num (.fin 0))) (.fin 0)))) ∧
      (∀ (segs : List RawSegment) (lang : Option String) (w : OutWord),
        w ∈ (transcribe_audio segs lang).words →
          ∃ q : ℚ, w.confidence = .fin q ∧ 0 ≤ q ∧ q ≤ 1) := by
  constructor
  · intro s e rw ow h
    exact (processWord_eq_some h).2.2.2
  · intro segs lang w hw
    obtain ⟨s, hs, rw, hrw, hp⟩ := (mem_words segs lang w).1 hw
    rw [(processWord_eq_some hp).2.2.2]
    exact wordConfidence_mem_unit rw

/-- C6 witness: the confidence of the first example word is a finite value
in the unit interval. -/
theorem confidence_clamped_w :
    ∃ q : ℚ, wA.confidence = .fin q ∧ 0 ≤ q ∧ q ≤ 1 :=
  confidence_clamped.2 segsA (some "en") wA (by decide)

/-- C7: a word whose trimmed token is empty is silently skipped, and the
number of emitted words is at most the total number of words seen across
all segments. -/
theorem empty_token_skipped :
    (∀ (s e : PyFloat) (rw : RawWord), strip ((rw.word).getD "") = "" →
        processWord s e rw = none) ∧
      (∀ (segs : List RawSegment) (lang : Option String),
        (transcribe_audio segs lang).words.length ≤
          (segs.map fun s => ((s.words).getD []).length).sum) := by
  constructor
  · intro s e rw h
    unfold processWord
    simp [h]
  · intro segs lang
    rw [transcribe_words]
    exact flatMap_words_length_le segs

/-- C7 witness: a whitespace-only token is dropped, and the example result
has at most as many words as were seen. -/
theorem empty_token_skipped_w :
    processWord (.fin 0) (.fin 1) rwEmpty = none ∧
      (transcribe_audio segsA (some "en")).words.length ≤
        (segsA.map fun s => ((s.words).getD []).length).sum :=
  ⟨empty_token_skipped.1 (.fin 0) (.fin 1) rwEmpty (by decide),
   empty_token_skipped.2 segsA (some "en")⟩

/-- C9: `safe_float` replaces only NaN and failed conversions: every
non-NaN float, the infinities included, passes through unchanged, and an
infinite sanitized segment end-time propagates into the result's duration. -/
theorem inf_propagates :
    (∀ fb, safe_float (.num .inf) fb = .inf) ∧
      (∀ fb, safe_float (.num .ninf) fb = .ninf) ∧
      (∀ x fb, x ≠ .nan → safe_float (.num x) fb = x) ∧
      (∀ (segs : List RawSegment) (lang : Option String) (s : RawSegment),
        s ∈ segs → segEndOf s = .inf →
          (transcribe_audio segs lang).duration = .inf) := by
  refine ⟨fun fb => rfl, fun fb => rfl, ?_, ?_⟩
  · intro x fb hx
    simp [safe_float, pyFloatConv, hx]
  · intro segs lang s hs hinf
    obtain ⟨-, hall, -⟩ := duration_facts segs lang
    have := hall s hs
    rw [hinf] at this
    exact eq_inf_of_pyle_inf _ this

/-- C9 witness: infinities pass through `safe_float` and an infinite
segment end-time yields an infinite duration. -/
theorem inf_propagates_w :
    safe_float (.num .inf) (.fin 0) = .inf ∧
      safe_float (.num .ninf) (.fin 0) = .ninf ∧
      safe_float (.num .inf) (.fin 7) = .inf ∧
      (transcribe_audio [segInfEnd] none).duration = .inf :=
  ⟨inf_propagates.1 (.fin 0), inf_propagates.2.1 (.fin 0),
   inf_propagates.2.2.1 .inf (.fin 7) (by decide),
   inf_propagates.2.2.2 [segInfEnd] none segInfEnd (by decide) (by decide)⟩

/-!
Model of the command-line driver (`parse_args`, `main`).  Effects are made
explicit: the platform probe, the availability of the engine module, the
existence check on the input path, and the outcome of the guarded
`transcribe_audio` call enter as parameters, and the observable effects
(exit code, error-stream lines, whether the engine was reached, whether
the output directories were created and which document was written) are
returned as a record.
-/

/-- The platform facts `is_unsupported_macos_intel_python` reads:
`sys.platform`, `platform.machine()` and `sys.version_info`. -/
structure Platform where
  sysPlatform : String
  machine : String
  verMajor : Nat
  verMinor : Nat
deriving DecidableEq

/-- `is_unsupported_macos_intel_python`: macOS on x86_64 with Python
version at least (3, 14). -/
def is_unsupported_macos_intel_python (p : Platform) : Bool :=
  p.sysPlatform == "darwin" && p.machine == "x86_64" &&
    (decide (3 < p.verMajor) || (decide (p.verMajor = 3) && decide (14 ≤ p.verMinor)))

/-- `missing_faster_whisper_message`, with the recorded import error (when
any) passed explicitly. -/
def missing_faster_whisper_message (p : Platform) (importErr : Option String) : String :=
  if is_unsupported_macos_intel_python p then
    "faster-whisper is unavailable on macOS Intel (x86_64) with Python 3.14+ " ++
      "because onnxruntime wheels are not published for that combination. " ++
      "Use Python 3.13 (or lower) on Intel Macs, then run `pip install -r requirements.txt`."
  else
    "faster-whisper is not installed. Run `pip install -r requirements.txt`." ++
      (match importErr with
       | some e => " Import error: " ++ e
       | none => "")

/-- The argument record produced by `parse_args`; `parse_args` errors out
unless `check` is set or both `input` and `output` are present. -/
structure Args where
  check : Bool
  input : Option String
  output : Option String
  model_size : String
deriving DecidableEq

/-- The observable effects of one `main` invocation. -/
structure MainResult where
  exitCode : Nat
  errLog : List String
  engineInvoked : Bool
  madeOutputDirs : Bool
  written : Option TranscriptionResult
deriving DecidableEq

/-- `main`, lines 139-162: the `--check` probe, the input-existence check,
the guarded decode call, and the output write.  `whisperModelNone` models
`WhisperModel is None`; `inputExists` models `os.path.exists(args.input)`;
`decodeResult` models the outcome of the `transcribe_audio` call (`error`
carrying the exception message, as formatted into the error stream). -/
def runMain (args : Args) (whisperModelNone : Bool) (p : Platform)
    (importErr : Option String) (inputExists : Bool)
    (decodeResult : Except String TranscriptionResult) : MainResult :=
  if args.check then
    if whisperModelNone || is_unsupported_macos_intel_python p then
      { exitCode := 1, errLog := [missing_faster_whisper_message p importErr]
      , engineInvoked := false, madeOutputDirs := false, written := none }
    else
      { exitCode := 0, errLog := [], engineInvoked := false
      , madeOutputDirs := false, written := none }
  else if !inputExists then
    { exitCode := 2, errLog := ["Input audio not found: " ++ (args.input).getD ""]
    , engineInvoked := false, madeOutputDirs := false, written := none }
  else
    match decodeResult with
    | .error msg =>
      { exitCode := 1, errLog := ["Transcription failed: " ++ msg]
      , engineInvoked := true, madeOutputDirs := false, written := none }
    | .ok result =>
      { exitCode := 0, errLog := [], engineInvoked := true
      , madeOutputDirs := true, written := some result }

/-- A non-`--check` invocation. -/
def argsRun : Args :=
  { check := false, input := some "in.wav", output := some "out.json", model_size := "base" }

/-- A Linux platform. -/
def platLinux : Platform :=
  { sysPlatform := "linux", machine := "x86_64", verMajor := 3, verMinor := 12 }

/-- C8: without `--check`, when the input path does not exist the program
reports the error on the error stream and exits with code 2, without
invoking the decode engine and without writing an output file. -/
theorem input_not_found_exit2 (args : Args) (wn : Bool) (p : Platform)
    (ie : Option String) (dec : Except String TranscriptionResult)
    (hc : args.check = false) :
    (runMain args wn p ie false dec).exitCode = 2 ∧
      (runMain args wn p ie false dec).errLog =
        ["Input audio not found: " ++ (args.input).getD ""] ∧
      (runMain args wn p ie false dec).engineInvoked = false ∧
      (runMain args wn p ie false dec).written = none ∧
      (runMain args wn p ie false dec).madeOutputDirs = false := by
  simp [runMain, hc]

/-- C8 witness: a concrete missing-input invocation. -/
theorem input_not_found_exit2_w :
    (runMain argsRun false platLinux none false (.error "e")).exitCode = 2 ∧
      (runMain argsRun false platLinux none false (.error "e")).errLog =
        ["Input audio not found: " ++ (argsRun.input).getD ""] ∧
      (runMain argsRun false platLinux none false (.error "e")).engineInvoked = false ∧
      (runMain argsRun false platLinux none false (.error "e")).written = none ∧
      (runMain argsRun false platLinux none false (.error "e")).madeOutputDirs = false :=
  input_not_found_exit2 argsRun false platLinux none (.error "e") rfl

/-- C10: when the guarded decode call fails, `main` prints the failure
message to the error stream and exits with code 1 without creating the
output directories or writing a document; and conversely the output is
created and written only on the success path. -/
theorem decode_failure_exit1 :
    (∀ (args : Args) (wn : Bool) (p : Platform) (ie : Option String) (msg : String),
        args.check = false →
          (runMain args wn p ie true (.error msg)).exitCode = 1 ∧
            (runMain args wn p ie true (.error msg)).errLog =
              ["Transcription failed: " ++ msg] ∧
            (runMain args wn p ie true (.error msg)).written = none ∧
            (runMain args wn p ie true (.error msg)).madeOutputDirs = false) ∧
      (∀ (args : Args) (wn : Bool) (p : Platform) (ie : Option String)
          (ex : Bool) (dec : Except String TranscriptionResult),
        (runMain args wn p ie ex dec).madeOutputDirs = true ∨
            (runMain args wn p ie ex dec).written ≠ none →
          ∃ result, dec = .ok result ∧
            (runMain args wn p ie ex dec).written = some result ∧
            (runMain args wn p ie ex dec).exitCode = 0 ∧
            args.check = false ∧ ex = true) := by
  constructor
  · intro args wn p ie msg hc
    simp [runMain, hc]
  · intro args wn p ie ex dec h
    by_cases hc : args.check
    · rcases h with h | h <;> simp [runMain, hc] at h <;> split at h <;> simp_all
    · by_cases hex : ex
      · cases dec with
        | error msg => rcases h with h | h <;> simp [runMain, hc, hex] at h
        | ok result =>
          refine ⟨result, rfl, ?_⟩
          simp [runMain, hc, hex]
      · rcases h with h | h <;> simp [runMain, hc, hex] at h

/-- C10 witness: a concrete failing decode, and a concrete successful one
whose output is written. -/
theorem decode_failure_exit1_w :
    ((runMain argsRun false platLinux none true (.error "boom")).exitCode = 1 ∧
      (runMain argsRun false platLinux none true (.error "boom")).errLog =
        ["Transcription failed: " ++ "boom"] ∧
      (runMain argsRun false platLinux none true (.error "boom")).written = none ∧
      (runMain argsRun false platLinux none true (.error "boom")).madeOutputDirs = false) ∧
      ∃ result,
        (.ok (transcribe_audio [] none) : Except String TranscriptionResult) = .ok result ∧
        (runMain argsRun false platLinux none true (.ok (transcribe_audio [] none))).written =
          some result ∧
        (runMain argsRun false platLinux none true
          (.ok (transcribe_audio [] none))).exitCode = 0 ∧
        argsRun.check = false ∧ (true : Bool) = true :=
  ⟨decode_failure_exit1.1 argsRun false platLinux none "boom" rfl,
   decode_failure_exit1.2 argsRun false platLinux none true (.ok (transcribe_audio [] none))
     (Or.inl (by decide))⟩

end Transcribe
